import Mathlib

/-
  Verification of the page-fetching subsystem of the QA-Assessment service
  (src/app/services/page_fetcher.py together with src/app/exceptions/exceptions.py).

  Python strings are modelled as `List Char`; the Python library operations the
  source uses (`str.split`, `str.strip`, `str.lower`, `in`, `startswith`,
  `dict` assignment and lookup) are given faithful executable models below.
  External collaborators (the HTTP client, the Playwright page, the LLM, the
  JSON parser, BeautifulSoup) are abstracted as oracle parameters: each fetch
  function takes the outcomes of the external calls as inputs and the theorems
  quantify over all of them.  Exceptions are modelled with `Except`; raising a
  Python exception is returning `Except.error`.
-/

namespace QAFetch

/-- Python `str`, modelled as a list of characters. -/
abbrev PyStr := List Char

/-- Literal Python strings. -/
def pstr (s : String) : PyStr := s.data

/-- Characters removed by Python `str.strip()` (standard ASCII whitespace). -/
def isPySpace (c : Char) : Bool :=
  c = ' ' || c = '\t' || c = '\n' || c = '\r' || c = '\x0b' || c = '\x0c'

/-- Python `s.strip()`: remove leading and trailing whitespace. -/
def pyStrip (s : PyStr) : PyStr :=
  ((s.dropWhile isPySpace).reverse.dropWhile isPySpace).reverse

/-- Python `s.lower()` (ASCII case folding, as used on header names). -/
def pyLower (s : PyStr) : PyStr := s.map Char.toLower

/-- Worker for Python `s.split(sep)` with non-empty `sep`: scan left to right,
cutting at each non-overlapping occurrence of `sep`. -/
def pySplitAux (sep : PyStr) : PyStr → PyStr → List PyStr
  | [], acc => [acc.reverse]
  | c :: rest, acc =>
    if sep <+: (c :: rest) then
      acc.reverse :: pySplitAux sep (rest.drop (sep.length - 1)) []
    else
      pySplitAux sep rest (c :: acc)
termination_by s _ => s.length
decreasing_by
  all_goals simp [List.length_drop]
  all_goals omega

/-- Python `s.split(sep)`. -/
def pySplit (sep s : PyStr) : List PyStr := pySplitAux sep s []

/-- Python `sub in s` (substring containment). -/
def pyContains (s sub : PyStr) : Bool := decide (sub <:+: s)

/-- Python `lst[i]` under a guard that guarantees the index is in range
(modelled totally with an empty-string default). -/
def pyIndex (l : List PyStr) (i : Nat) : PyStr := l.getD i []

/-- Python dict membership test on an association-list dict model. -/
def has_key {β : Type} (d : List (PyStr × β)) (k : PyStr) : Bool :=
  d.any (fun p => decide (p.1 = k))

/-- Python `d[k]` / `d.get(k)` on the association-list dict model
(first matching key; the model keeps keys unique). -/
def dict_get {β : Type} (d : List (PyStr × β)) (k : PyStr) : Option β :=
  (d.find? (fun p => decide (p.1 = k))).map Prod.snd

/-- Python `d[k] = v`: overwrite in place if the key exists, else append
(CPython dicts preserve insertion order). -/
def dict_assign {β : Type} (d : List (PyStr × β)) (k : PyStr) (v : β) :
    List (PyStr × β) :=
  if has_key d k then d.map (fun p => if p.1 = k then (k, v) else p)
  else d ++ [(k, v)]

/-- A parsed JSON value, as produced by Python `json.loads`. -/
inductive PyJson where
  | null
  | boolean (b : Bool)
  | num (n : Int)
  | str (s : PyStr)
  | arr (elems : List PyJson)
  | obj (fields : List (PyStr × PyJson))

/-- The typed fetcher exceptions of `exceptions.py`, plus `generic` for a plain
Python `Exception(msg)` (as raised by exhausted action strategies). -/
inductive PyExc where
  | pageUnreachable (msg : PyStr)
  | pageTimeout (msg : PyStr)
  | httpError (status_code : Nat)
  | unsupportedContentType (msg : PyStr)
  | emptyResponse (msg : PyStr)
  | domParsing (msg : PyStr)
  | generic (msg : PyStr)
deriving DecidableEq

/-- Python `str(e)` for the modelled exceptions: `HTTPErrorException.__init__`
formats `"HTTP error: {status_code}"`; all others carry their message. -/
def py_exc_msg : PyExc → PyStr
  | .pageUnreachable m => m
  | .pageTimeout m => m
  | .httpError c => pstr "HTTP error: " ++ (toString c).data
  | .unsupportedContentType m => m
  | .emptyResponse m => m
  | .domParsing m => m
  | .generic m => m

/-- The markdown-fence constant used by `AgenticPageFetcher._interpret_instruction`. -/
def fence : PyStr := pstr "```"

/-- The json-tagged fence constant. -/
def fenceJson : PyStr := pstr "```json"

/-- Lines 315-320 of `_interpret_instruction`: pull a fenced code block's
interior out of the model response, if one is present. -/
def extract_json_text (response_text : PyStr) : PyStr :=
  if pyContains response_text fenceJson then
    pyStrip (pyIndex (pySplit fence (pyIndex (pySplit fenceJson response_text) 1)) 0)
  else if pyContains response_text fence then
    pyStrip (pyIndex (pySplit fence (pyIndex (pySplit fence response_text) 1)) 0)
  else response_text

/-- `AgenticPageFetcher._interpret_instruction`, lines 313-338, from the point
where the model response text is known.  `jloads` models `json.loads`
(`none` = `json.JSONDecodeError`, the only exception that call raises on
string input, and exactly the class the code catches).  `content` is the raw
`message.content`; line 313 strips it.  The result models the value of
`actions`: the parse-failure branch returns the empty list. -/
def interpret_instruction (jloads : PyStr → Option PyJson) (content : PyStr) :
    PyJson :=
  let response_text := pyStrip content
  let json_text := extract_json_text response_text
  match jloads json_text with
  | none => PyJson.arr []
  | some parsed =>
    match parsed with
    | PyJson.obj fields =>
      match dict_get fields (pstr "actions") with
      | some v => v
      | none => PyJson.arr [PyJson.obj fields]
    | PyJson.arr elems => PyJson.arr elems
    | other => PyJson.arr [other]

/-- Line 375 of `_action_click`: `s.startswith(('text=', 'css=', '#', '.', '['))`. -/
def looks_like_selector (s : PyStr) : Bool :=
  decide ((pstr "text=") <+: s) || decide ((pstr "css=") <+: s) ||
  decide ((pstr "#") <+: s) || decide ((pstr ".") <+: s) ||
  decide ((pstr "[") <+: s)

/-- Strategy 1 alternative: `f'text="{s}"'` (exact text match). -/
def sel_text_exact (s : PyStr) : PyStr := pstr "text=\"" ++ s ++ pstr "\""

/-- Strategy 2: `f'text=/{s}/i'` (case-insensitive regex text match). -/
def sel_text_regex (s : PyStr) : PyStr := pstr "text=/" ++ s ++ pstr "/i"

/-- Strategy 3: `f'a:has-text("{s}")'`. -/
def sel_link (s : PyStr) : PyStr := pstr "a:has-text(\"" ++ s ++ pstr "\")"

/-- Strategy 4: `f'button:has-text("{s}")'`. -/
def sel_button (s : PyStr) : PyStr := pstr "button:has-text(\"" ++ s ++ pstr "\")"

/-- Strategy 5: `f'[aria-label*="{s}" i]'`. -/
def sel_aria (s : PyStr) : PyStr := pstr "[aria-label*=\"" ++ s ++ pstr "\" i]"

/-- The `strategies` list of `_action_click` (lines 373-386): six closures.
The first one merges "raw hint if it already looks like a selector" with
"exact-text match" into a single conditional strategy. -/
def click_strategies : List (PyStr → PyStr) :=
  [ fun s => if looks_like_selector s then s else sel_text_exact s,
    sel_text_regex,
    sel_link,
    sel_button,
    sel_aria,
    fun s => s ]

/-- The concrete selectors `_action_click` attempts for a hint, in order. -/
def click_attempts (s : PyStr) : List PyStr := click_strategies.map (fun f => f s)

/-- The strategy list as claim C4 words it: seven strategies (a)-(g) in fixed
order, (a) conditional on the hint looking like a selector, (b) exact-text
always tried.  Written from the claim, to be compared with `click_attempts`. -/
def spec_click_attempts (s : PyStr) : List PyStr :=
  (if looks_like_selector s then [s] else []) ++
  [ sel_text_exact s, sel_text_regex s, sel_link s, sel_button s, sel_aria s, s ]

/-- `_action_click` (lines 368-399): try each computed selector in order; the
oracle `clickOk` models whether `page.click` (plus the following
`wait_for_load_state`) succeeds on a given selector; on success return with
the winning selector, on exhaustion raise `Exception(f"Could not click on: {selector}")`. -/
def action_click (clickOk : PyStr → Bool) (selector : PyStr) :
    Except PyStr PyStr :=
  match (click_attempts selector).find? clickOk with
  | some c => Except.ok c
  | none => Except.error (pstr "Could not click on: " ++ selector)

/-- Observable page effects of `_action_scroll`. -/
inductive ScrollEffect where
  | intoView (selector : PyStr)
  | evalJs (cmd : PyStr)
deriving DecidableEq

/-- The `scroll_commands` dict of `_action_scroll` with its
`.get(direction, scroll_commands["down"])` lookup. -/
def scroll_command_for (direction : PyStr) : PyStr :=
  if direction = pstr "down" then pstr "window.scrollBy(0, 500)"
  else if direction = pstr "up" then pstr "window.scrollBy(0, -500)"
  else if direction = pstr "bottom" then pstr "window.scrollTo(0, document.body.scrollHeight)"
  else if direction = pstr "top" then pstr "window.scrollTo(0, 0)"
  else pstr "window.scrollBy(0, 500)"

/-- `_action_scroll` (lines 452-470).  `query` models
`page.query_selector` on a valid selector (`true` = an element was found).
`selector` is `params.get("selector")`; a present-but-empty string is falsy in
Python, so it takes the viewport branch.  The code raises nowhere on these
paths; the result is the list of page effects performed. -/
def action_scroll (query : PyStr → Bool) (direction : PyStr)
    (selector : Option PyStr) : List ScrollEffect :=
  match selector with
  | some sel =>
    if sel = [] then [ScrollEffect.evalJs (scroll_command_for direction)]
    else if query sel then [ScrollEffect.intoView sel]
    else []
  | none => [ScrollEffect.evalJs (scroll_command_for direction)]

/-- One pass of the action loop in `_execute_smart_instructions` (lines
267-268): execute actions in order; `execA` models `_execute_action` on the
live page (`some e` = that call raised `e`; line 366 re-raises whatever a
handler raised).  Returns the actions actually attempted, in order, and the
first exception if one occurred, which aborts the rest. -/
def exec_actions (execA : PyJson → Option PyExc) :
    List PyJson → List PyJson × Option PyExc
  | [] => ([], none)
  | a :: rest =>
    match execA a with
    | some e => ([a], some e)
    | none =>
      let r := exec_actions execA rest
      (a :: r.1, r.2)

/-- The instruction loop of `_execute_smart_instructions` (lines 260-268).
`interp k ins` models the value `_interpret_instruction` returns for the
`k`-th LLM call on instruction text `ins` (the per-call index keeps distinct
LLM calls independent).  One instruction's action list is fully drained before
the next instruction is interpreted; an exception aborts everything after it. -/
def exec_instructions_from (interp : Nat → PyStr → List PyJson)
    (execA : PyJson → Option PyExc) :
    Nat → List PyStr → List PyJson × Option PyExc
  | _, [] => ([], none)
  | k, ins :: rest =>
    let r := exec_actions execA (interp k ins)
    match r.2 with
    | some e => (r.1, some e)
    | none =>
      let r2 := exec_instructions_from interp execA (k + 1) rest
      (r.1 ++ r2.1, r2.2)

/-- Line 257-258: `if isinstance(instructions, str): instructions = [instructions]`. -/
def normalize_instructions : PyStr ⊕ List PyStr → List PyStr
  | Sum.inl s => [s]
  | Sum.inr l => l

/-- `_execute_smart_instructions` (lines 255-268). -/
def execute_smart_instructions (interp : Nat → PyStr → List PyJson)
    (execA : PyJson → Option PyExc) (instructions : PyStr ⊕ List PyStr) :
    List PyJson × Option PyExc :=
  exec_instructions_from interp execA 0 (normalize_instructions instructions)

/-- The flattened sequence of actions the interpreter plans for an instruction
list, instruction by instruction, starting at call index `k`. -/
def planned_actions (interp : Nat → PyStr → List PyJson) :
    Nat → List PyStr → List PyJson
  | _, [] => []
  | k, ins :: rest => interp k ins ++ planned_actions interp (k + 1) rest

/-- A header value in the dict built by `_collect_headers`: every plain header
is a scalar string, `set-cookie` is collected into a list of strings. -/
inductive HeaderVal where
  | scalar (v : PyStr)
  | vlist (vs : List PyStr)
deriving DecidableEq

/-- Line 244: `name.lower() == 'set-cookie'`. -/
def is_set_cookie (name : PyStr) : Bool := decide (pyLower name = pstr "set-cookie")

/-- The header loop of `_collect_headers` (lines 240-247): split the raw
`headers_array` into the plain-header dict and the collected Set-Cookie
values. -/
def collect_headers_loop :
    List (PyStr × PyStr) → List (PyStr × HeaderVal) → List PyStr →
    List (PyStr × HeaderVal) × List PyStr
  | [], d, cookies => (d, cookies)
  | (name, value) :: rest, d, cookies =>
    if is_set_cookie name then
      collect_headers_loop rest d (cookies ++ [value])
    else
      collect_headers_loop rest (dict_assign d name (HeaderVal.scalar value)) cookies

/-- `AgenticPageFetcher._collect_headers` (lines 230-253): `headers_array` is
the list of `{name, value}` pairs `response.headers_array()` returned. -/
def collect_headers (headers_array : List (PyStr × PyStr)) :
    List (PyStr × HeaderVal) :=
  let r := collect_headers_loop headers_array [] []
  if r.2 ≠ [] then dict_assign r.1 (pstr "set-cookie") (HeaderVal.vlist r.2)
  else r.1

/-- The `PageSnapshot` dataclass (lines 21-27).  `D` is the type of the
BeautifulSoup document handle, abstract to the embedding. -/
structure PageSnapshot (D : Type) where
  url : PyStr
  status_code : Nat
  headers : List (PyStr × HeaderVal)
  html : PyStr
  dom : D
deriving DecidableEq

/-- An `httpx` response as `PageFetcher.fetch` reads it: `headers` is the
(case-folded, single-valued) header dict view `httpx.Headers` presents. -/
structure HttpResponse where
  status_code : Nat
  headers : List (PyStr × PyStr)
  text : PyStr
  url : PyStr

/-- The `httpx` exception classes the fast path distinguishes (lines 45-50);
`requestError` stands for any other `httpx.RequestError`. -/
inductive HttpxErr where
  | connectError
  | readTimeout
  | requestError

/-- `PageFetcher.fetch` (lines 31-75).  `soup` models
`BeautifulSoup(html, "html.parser")` (`none` = it raised); `net` is the
outcome of the `client.get(url)` call. -/
def PageFetcher_fetch {D : Type} (soup : PyStr → Option D)
    (net : HttpxErr ⊕ HttpResponse) (url : PyStr) :
    Except PyExc (PageSnapshot D) :=
  match net with
  | Sum.inl HttpxErr.connectError =>
    Except.error (PyExc.pageUnreachable (pstr "Unable to reach: " ++ url))
  | Sum.inl HttpxErr.readTimeout =>
    Except.error (PyExc.pageTimeout (pstr "Timeout while fetching: " ++ url))
  | Sum.inl HttpxErr.requestError =>
    Except.error (PyExc.pageUnreachable (pstr "Request failed for: " ++ url))
  | Sum.inr response =>
    if response.status_code ≥ 400 then
      Except.error (PyExc.httpError response.status_code)
    else
      let content_type := (dict_get response.headers (pstr "content-type")).getD []
      if pyContains content_type (pstr "text/html") = false then
        Except.error (PyExc.unsupportedContentType
          (pstr "Unsupported content type: " ++ content_type))
      else
        let html := pyStrip response.text
        if html = [] then
          Except.error (PyExc.emptyResponse (pstr "Empty response body"))
        else
          match soup html with
          | none => Except.error (PyExc.domParsing (pstr "Failed to parse DOM"))
          | some dom =>
            Except.ok
              { url := response.url
                status_code := response.status_code
                headers := response.headers.map (fun p => (p.1, HeaderVal.scalar p.2))
                html := html
                dom := dom }

/-- The navigation response `page.goto` returned (when it returned one). -/
structure NavResponse where
  status : Nat
  headers_array : List (PyStr × PyStr)

/-- Outcomes of the external calls one `AgenticPageFetcher.fetch` run makes.
`gotoResult`: `Sum.inl msg` means `page.goto` raised with `str(e) = msg`;
`Sum.inr none` means it returned `None` (as Playwright does for
same-document navigations); `Sum.inr (some r)` is a navigation response.
`interp`/`execA` are the orchestrator oracles of
`execute_smart_instructions`; `content` is `page.content()`, `finalUrl` is
`page.url`, `soup` is BeautifulSoup. -/
structure AgenticEnv (D : Type) where
  gotoResult : PyStr ⊕ Option NavResponse
  interp : Nat → PyStr → List PyJson
  execA : PyJson → Option PyExc
  finalUrl : PyStr
  content : PyStr
  soup : PyStr → Option D

/-- Browser lifecycle events observable from `AgenticPageFetcher.fetch`:
`closeBrowser` is an explicit `await browser.close()`; `scopeExit` is the
exit of the `async with async_playwright()` block, whose teardown stops the
Playwright driver and with it every browser it launched. -/
inductive BrowserEvent where
  | launch
  | closeBrowser
  | scopeExit
deriving DecidableEq

/-- Lines 187-193: classify a `page.goto` exception message into the typed
fetch failures, in the source's test order. -/
def classify_goto_error (url msg : PyStr) : PyExc :=
  if pyContains msg (pstr "ERR_INTERNET_DISCONNECTED") ||
     pyContains msg (pstr "ERR_NAME_NOT_RESOLVED") then
    PyExc.pageUnreachable (pstr "Unable to reach: " ++ url)
  else if pyContains msg (pstr "Timeout") || pyContains msg (pstr "timeout") then
    PyExc.pageTimeout (pstr "Timeout while fetching: " ++ url)
  else
    PyExc.pageUnreachable (pstr "Failed to load page: " ++ url)

/-- Lines 212-215: the outer `except` chain re-raises the four listed typed
exceptions unchanged and wraps anything else in
`PageUnreachableException(f"Unexpected error: {str(e)}")`. -/
def outer_except : PyExc → PyExc
  | PyExc.pageUnreachable m => PyExc.pageUnreachable m
  | PyExc.pageTimeout m => PyExc.pageTimeout m
  | PyExc.httpError c => PyExc.httpError c
  | PyExc.domParsing m => PyExc.domParsing m
  | e => PyExc.pageUnreachable (pstr "Unexpected error: " ++ py_exc_msg e)

/-- Line 200: `if setup_instructions:` — Python truthiness, so `None`, `""`
and `[]` all skip the setup phase. -/
def instructions_truthy : Option (PyStr ⊕ List PyStr) → Bool
  | none => false
  | some (Sum.inl s) => decide (s ≠ [])
  | some (Sum.inr l) => decide (l ≠ [])

/-- `AgenticPageFetcher.fetch` (lines 164-228), returning the call's result
together with the browser lifecycle events it emitted, in order.  Mirrors the
source paths: a `goto` exception closes the browser explicitly and re-raises
the classified error through the outer handler; a setup exception propagates
out of the `async with` scope (no explicit close) and is mapped by the outer
`except` chain; on the success path the browser is closed explicitly, the DOM
is parsed after the scope exits, and `status_code or 0` supplies `0` when
`goto` returned `None`. -/
def agentic_fetch {D : Type} (env : AgenticEnv D) (url : PyStr)
    (setup_instructions : Option (PyStr ⊕ List PyStr)) :
    Except PyExc (PageSnapshot D) × List BrowserEvent :=
  match env.gotoResult with
  | Sum.inl msg =>
    (Except.error (classify_goto_error url msg),
     [BrowserEvent.launch, BrowserEvent.closeBrowser, BrowserEvent.scopeExit])
  | Sum.inr navOpt =>
    let headers : List (PyStr × HeaderVal) :=
      match navOpt with
      | some r => collect_headers r.headers_array
      | none => []
    let status_code : Option Nat := navOpt.map NavResponse.status
    let setupErr : Option PyExc :=
      if instructions_truthy setup_instructions then
        match setup_instructions with
        | some ins => (execute_smart_instructions env.interp env.execA ins).2
        | none => none
      else none
    match setupErr with
    | some e =>
      (Except.error (outer_except e), [BrowserEvent.launch, BrowserEvent.scopeExit])
    | none =>
      match env.soup env.content with
      | none =>
        (Except.error (PyExc.domParsing (pstr "Failed to parse DOM")),
         [BrowserEvent.launch, BrowserEvent.closeBrowser, BrowserEvent.scopeExit])
      | some dom =>
        (Except.ok
          { url := env.finalUrl
            status_code := status_code.getD 0
            headers := headers
            html := env.content
            dom := dom },
         [BrowserEvent.launch, BrowserEvent.closeBrowser, BrowserEvent.scopeExit])

/-- The browser resource is released: either an explicit `browser.close()` ran
or the `async_playwright` scope exited (its teardown closes launched
browsers). -/
def browser_released (tr : List BrowserEvent) : Prop :=
  BrowserEvent.closeBrowser ∈ tr ∨ BrowserEvent.scopeExit ∈ tr

/-- A model response wrapped in a json-tagged fenced code block around
interior `t`. -/
def wrap_json (t : PyStr) : PyStr := fenceJson ++ ['\n'] ++ t ++ ['\n'] ++ fence

/-- A model response wrapped in an untagged fenced code block around
interior `t`. -/
def wrap_bare (t : PyStr) : PyStr := fence ++ ['\n'] ++ t ++ ['\n'] ++ fence

/-! ### Helper lemmas -/

theorem find_at_first_true {α : Type} (p : α → Bool) (l : List α) :
    ∀ (i : Nat) (hi : i < l.length), p (l.get ⟨i, hi⟩) = true →
    (∀ (j : Nat) (hj : j < i), p (l.get ⟨j, Nat.lt_trans hj hi⟩) = false) →
    l.find? p = some (l.get ⟨i, hi⟩) := by
  induction l with
  | nil => intro i hi; simp at hi
  | cons a rest ih =>
    intro i hi hp hb
    cases i with
    | zero =>
      simp only [List.get] at hp
      simp [List.find?, hp]
    | succ i' =>
      have ha : p a = false := hb 0 (Nat.succ_pos i')
      simp only [List.get] at hp ⊢
      simp [List.find?, ha]
      exact ih i' (Nat.lt_of_succ_lt_succ hi) hp
        (fun j hj => hb (j + 1) (Nat.succ_lt_succ hj))

theorem prefix_append_cases {α : Type} (a x y : List α) (h : a <+: x ++ y) :
    a <+: x ∨ x <+: a := by
  rcases le_or_lt a.length x.length with hl | hl
  · exact Or.inl (List.prefix_of_prefix_length_le h (List.prefix_append x y) hl)
  · exact Or.inr (List.prefix_of_prefix_length_le (List.prefix_append x y) h (le_of_lt hl))

theorem getLast_mem_of_pre {α : Type} (x a : List α) (hx : x ≠ [])
    (h : x <+: a) : x.getLast hx ∈ a :=
  h.subset (List.getLast_mem hx)

theorem getLast_of_suffix {α : Type} (x l : List α) (hx : x ≠ []) (hl : l ≠ [])
    (h : x <:+ l) : x.getLast hx = l.getLast hl := by
  obtain ⟨p, rfl⟩ := h
  exact (List.getLast_append_of_ne_nil hx).symm

theorem no_match_in_zone (sep l₁ l₂ : List Char) (hno : ¬ sep <:+: l₁)
    (hne : l₁ ≠ []) (hlast : ∀ a, l₁.getLast? = some a → a ∉ sep) :
    ∀ x, x <:+ l₁ → x ≠ [] → ¬ sep <+: (x ++ l₂) := by
  intro x hx hxne hp
  rcases prefix_append_cases sep x l₂ hp with h | h
  · exact hno (h.isInfix.trans hx.isInfix)
  · have hmem := getLast_mem_of_pre x sep hxne h
    rw [getLast_of_suffix x l₁ hxne hne hx] at hmem
    exact hlast (l₁.getLast hne) (List.getLast?_eq_getLast l₁ hne) hmem

theorem infix_snoc_cases {α : Type} (sep l : List α) (a : α)
    (h : sep <:+: l ++ [a]) :
    sep <:+: l ∨ sep.getLast? = some a := by
  obtain ⟨s, u, hsu⟩ := h
  rcases List.eq_nil_or_concat u with rfl | ⟨u', b, rfl⟩
  · rcases List.eq_nil_or_concat sep with rfl | ⟨sep', c, rfl⟩
    · exact Or.inl List.nil_infix
    · right
      rw [List.concat_eq_append] at hsu
      rw [List.append_nil, ← List.append_assoc] at hsu
      obtain ⟨-, hc⟩ := List.append_inj' hsu rfl
      have hc' : c = a := by simpa using hc
      rw [List.concat_eq_append, List.getLast?_concat, hc']
  · left
    rw [List.concat_eq_append, ← List.append_assoc] at hsu
    obtain ⟨hl, -⟩ := List.append_inj' hsu rfl
    exact ⟨s, u', hl⟩

theorem sub_no_occ (a b l : List Char) (hab : a <+: b) (h : ¬ a <:+: l) :
    ¬ b <:+: l :=
  fun hb => h (hab.isInfix.trans hb)

theorem no_occ_of_short_tail (sep l₁ l₂ : List Char) (hno : ¬ sep <:+: l₁)
    (hne : l₁ ≠ []) (hlast : ∀ a, l₁.getLast? = some a → a ∉ sep)
    (hlen : l₂.length < sep.length) : ¬ sep <:+: (l₁ ++ l₂) := by
  intro hocc
  obtain ⟨s, u, hsu⟩ := hocc
  rcases le_or_lt l₁.length s.length with hls | hls
  · have hlen2 := congrArg List.length hsu
    simp [List.length_append] at hlen2
    omega
  · have hxs : l₁.drop s.length <:+ l₁ := List.drop_suffix _ _
    have hxne : l₁.drop s.length ≠ [] := by
      rw [Ne, List.drop_eq_nil_iff]
      omega
    have hdrop : sep ++ u = l₁.drop s.length ++ l₂ := by
      have h1 := congrArg (List.drop s.length) hsu
      rw [List.append_assoc] at h1
      rw [List.drop_left] at h1
      rw [List.drop_append_eq_append_drop] at h1
      rw [show s.length - l₁.length = 0 by omega, List.drop_zero] at h1
      exact h1
    exact no_match_in_zone sep l₁ l₂ hno hne hlast (l₁.drop s.length) hxs hxne
      ⟨u, hdrop⟩

theorem pySplitAux_nil (sep acc : PyStr) : pySplitAux sep [] acc = [acc.reverse] := by
  simp [pySplitAux]

theorem pySplitAux_cons_pos (sep : PyStr) (c : Char) (rest acc : PyStr)
    (h : sep <+: (c :: rest)) :
    pySplitAux sep (c :: rest) acc =
      acc.reverse :: pySplitAux sep (rest.drop (sep.length - 1)) [] := by
  rw [pySplitAux]
  rw [if_pos h]

theorem pySplitAux_cons_neg (sep : PyStr) (c : Char) (rest acc : PyStr)
    (h : ¬ sep <+: (c :: rest)) :
    pySplitAux sep (c :: rest) acc = pySplitAux sep rest (c :: acc) := by
  rw [pySplitAux]
  rw [if_neg h]

theorem pySplitAux_no_occ (sep : PyStr) (l : PyStr) :
    ∀ acc, ¬ sep <:+: l → pySplitAux sep l acc = [acc.reverse ++ l] := by
  induction l with
  | nil => intro acc _; simp [pySplitAux_nil]
  | cons c rest ih =>
    intro acc h
    have hnp : ¬ sep <+: (c :: rest) := fun hp => h hp.isInfix
    rw [pySplitAux_cons_neg sep c rest acc hnp,
      ih (c :: acc) (fun hi => h (List.infix_cons hi))]
    simp

theorem pySplitAux_boundary (sep : PyStr) (hsep : sep ≠ []) :
    ∀ (l₁ l₂ acc : PyStr),
    (∀ x, x <:+ l₁ → x ≠ [] → ¬ sep <+: (x ++ sep ++ l₂)) →
    pySplitAux sep (l₁ ++ sep ++ l₂) acc =
      (acc.reverse ++ l₁) :: pySplitAux sep l₂ [] := by
  intro l₁
  induction l₁ with
  | nil =>
    intro l₂ acc _
    obtain ⟨c, cs, rfl⟩ : ∃ c cs, sep = c :: cs := by
      cases sep with
      | nil => exact absurd rfl hsep
      | cons c cs => exact ⟨c, cs, rfl⟩
    simp only [List.nil_append]
    rw [show (c :: cs) ++ l₂ = c :: (cs ++ l₂) from rfl]
    rw [pySplitAux_cons_pos (c :: cs) c (cs ++ l₂) acc ⟨l₂, by simp⟩]
    rw [show (c :: cs).length - 1 = cs.length by simp]
    rw [List.drop_left cs l₂]
    simp
  | cons d l₁' ih =>
    intro l₂ acc hclean
    rw [show (d :: l₁') ++ sep ++ l₂ = d :: (l₁' ++ sep ++ l₂) by simp]
    rw [pySplitAux_cons_neg sep d (l₁' ++ sep ++ l₂) acc
      (by
        have := hclean (d :: l₁') (List.suffix_refl _) (by simp)
        intro hp
        exact this (by simpa [List.append_assoc] using hp))]
    rw [ih l₂ (d :: acc)
      (fun x hx hxne => hclean x (hx.trans (List.suffix_cons d l₁')) hxne)]
    simp

theorem pyStrip_of_nonspace_ends (c d : Char) (m : List Char)
    (hc : isPySpace c = false) (hd : isPySpace d = false) :
    pyStrip (c :: (m ++ [d])) = c :: (m ++ [d]) := by
  unfold pyStrip
  rw [List.dropWhile_cons, if_neg (by simp [hc])]
  rw [show (c :: (m ++ [d])).reverse = d :: (m.reverse ++ [c]) by simp]
  rw [List.dropWhile_cons, if_neg (by simp [hd])]
  rw [show (d :: (m.reverse ++ [c])).reverse = c :: (m ++ [d]) by simp]

theorem pyStrip_cons_nl (l : PyStr) : pyStrip ('\n' :: l) = pyStrip l := by
  unfold pyStrip
  rw [List.dropWhile_cons, if_pos (by decide)]

theorem pyStrip_snoc_nl (l : PyStr) : pyStrip (l ++ ['\n']) = pyStrip l := by
  unfold pyStrip
  rw [List.dropWhile_append]
  by_cases he : (l.dropWhile isPySpace).isEmpty
  · rw [if_pos he]
    rw [List.isEmpty_iff.1 he]
    rfl
  · rw [if_neg he]
    rw [show (l.dropWhile isPySpace ++ ['\n']).reverse =
      '\n' :: (l.dropWhile isPySpace).reverse by simp]
    rw [List.dropWhile_cons, if_pos (by decide)]

theorem pyStrip_isInfix (t : PyStr) : pyStrip t <:+: t := by
  have h1 : t.dropWhile isPySpace <:+ t := List.dropWhile_suffix _
  have h2 : ((t.dropWhile isPySpace).reverse.dropWhile isPySpace) <:+
      (t.dropWhile isPySpace).reverse := List.dropWhile_suffix _
  have h3 : pyStrip t <+: t.dropWhile isPySpace := by
    unfold pyStrip
    apply List.reverse_suffix.1
    rw [List.reverse_reverse]
    exact h2
  exact h3.isInfix.trans h1.isInfix

theorem fence_chars : fence = ['`', '`', '`'] := by decide

theorem fenceJson_chars : fenceJson = ['`', '`', '`', 'j', 's', 'o', 'n'] := by
  decide

theorem no_fence_in_snoc_nl (t : PyStr) (h : ¬ fence <:+: t) :
    ¬ fence <:+: (t ++ ['\n']) := by
  intro hi
  rcases infix_snoc_cases fence t '\n' hi with h1 | h2
  · exact h h1
  · exact absurd h2 (by decide)

theorem no_fenceJson_in_snoc_nl (t : PyStr) (h : ¬ fence <:+: t) :
    ¬ fenceJson <:+: (t ++ ['\n']) := by
  intro hi
  rcases infix_snoc_cases fenceJson t '\n' hi with h1 | h2
  · exact sub_no_occ fence fenceJson t (by decide) h h1
  · exact absurd h2 (by decide)

theorem no_fence_in_mid (t : PyStr) (h : ¬ fence <:+: t) :
    ¬ fence <:+: ('\n' :: (t ++ ['\n'])) := by
  intro hi
  rcases List.infix_cons_iff.1 hi with hp | hi'
  · rw [fence_chars] at hp
    simp [List.cons_prefix_cons] at hp
  · exact no_fence_in_snoc_nl t h hi'

theorem no_fenceJson_in_tagged_rest (t : PyStr) (h : ¬ fence <:+: t) :
    ¬ fenceJson <:+: ('\n' :: ((t ++ ['\n']) ++ fence)) := by
  intro hi
  rcases List.infix_cons_iff.1 hi with hp | hi'
  · rw [fenceJson_chars] at hp
    simp [List.cons_prefix_cons] at hp
  · refine no_occ_of_short_tail fenceJson (t ++ ['\n']) fence
      (no_fenceJson_in_snoc_nl t h) (by simp) ?_ (by decide) hi'
    intro a ha
    rw [List.getLast?_concat] at ha
    rw [fenceJson_chars]
    rw [show a = '\n' by simpa using ha.symm]
    decide

theorem no_fenceJson_in_bare (t : PyStr) (h : ¬ fence <:+: t) :
    ¬ fenceJson <:+: wrap_bare t := by
  have hshape : wrap_bare t =
      ('`' :: '`' :: '`' :: '\n' :: (t ++ ['\n'])) ++ fence := by
    rw [wrap_bare, fence_chars]
    simp
  rw [hshape]
  have hmid : ¬ fenceJson <:+: ('`' :: '`' :: '`' :: '\n' :: (t ++ ['\n'])) := by
    intro hi
    rcases List.infix_cons_iff.1 hi with hp | hi₁
    · rw [fenceJson_chars] at hp
      simp [List.cons_prefix_cons] at hp
    rcases List.infix_cons_iff.1 hi₁ with hp | hi₂
    · rw [fenceJson_chars] at hp
      simp [List.cons_prefix_cons] at hp
    rcases List.infix_cons_iff.1 hi₂ with hp | hi₃
    · rw [fenceJson_chars] at hp
      simp [List.cons_prefix_cons] at hp
    rcases List.infix_cons_iff.1 hi₃ with hp | hi₄
    · rw [fenceJson_chars] at hp
      simp [List.cons_prefix_cons] at hp
    · exact no_fenceJson_in_snoc_nl t h hi₄
  refine no_occ_of_short_tail fenceJson _ fence hmid (by simp) ?_ (by decide)
  intro a ha
  rw [show ('`' :: '`' :: '`' :: '\n' :: (t ++ ['\n'])) =
    ('`' :: '`' :: '`' :: '\n' :: t) ++ ['\n'] by simp] at ha
  rw [List.getLast?_concat] at ha
  rw [fenceJson_chars]
  rw [show a = '\n' by simpa using ha.symm]
  decide

theorem pyStrip_wrap_json (t : PyStr) : pyStrip (wrap_json t) = wrap_json t := by
  have hshape : wrap_json t =
      '`' :: (('`' :: '`' :: 'j' :: 's' :: 'o' :: 'n' :: '\n' :: (t ++ ['\n', '`', '`'])) ++ ['`']) := by
    rw [wrap_json, fenceJson_chars, fence_chars]
    simp
  rw [hshape]
  exact pyStrip_of_nonspace_ends '`' '`' _ (by decide) (by decide)

theorem pyStrip_wrap_bare (t : PyStr) : pyStrip (wrap_bare t) = wrap_bare t := by
  have hshape : wrap_bare t =
      '`' :: (('`' :: '`' :: '\n' :: (t ++ ['\n', '`', '`'])) ++ ['`']) := by
    rw [wrap_bare, fence_chars]
    simp
  rw [hshape]
  exact pyStrip_of_nonspace_ends '`' '`' _ (by decide) (by decide)

theorem extract_no_fence (s : PyStr) (h1 : ¬ fenceJson <:+: s)
    (h2 : ¬ fence <:+: s) : extract_json_text s = s := by
  have c1 : pyContains s fenceJson = false := by
    unfold pyContains
    exact decide_eq_false h1
  have c2 : pyContains s fence = false := by
    unfold pyContains
    exact decide_eq_false h2
  unfold extract_json_text
  rw [c1, c2]
  simp

theorem fence_clean_mid (t : PyStr) (h : ¬ fence <:+: t) :
    ∀ x, x <:+ ('\n' :: (t ++ ['\n'])) → x ≠ [] →
      ¬ fence <+: (x ++ fence ++ []) := by
  intro x hx hxne hp
  refine no_match_in_zone fence ('\n' :: (t ++ ['\n'])) (fence ++ [])
    (no_fence_in_mid t h) (by simp) ?_ x hx hxne
    (by simpa [List.append_assoc] using hp)
  intro a ha
  rw [show ('\n' :: (t ++ ['\n'])) = ('\n' :: t) ++ ['\n'] by simp] at ha
  rw [List.getLast?_concat] at ha
  rw [fence_chars, show a = '\n' by simpa using ha.symm]
  decide

theorem split_mid_fence (t : PyStr) (h : ¬ fence <:+: t) :
    pySplitAux fence ('\n' :: ((t ++ ['\n']) ++ fence)) [] =
      ['\n' :: (t ++ ['\n']), []] := by
  have hb := pySplitAux_boundary fence (by decide) ('\n' :: (t ++ ['\n'])) [] []
    (fence_clean_mid t h)
  rw [List.append_nil] at hb
  rw [pySplitAux_nil] at hb
  simpa using hb

theorem extract_wrap_json (t : PyStr) (h : ¬ fence <:+: t) :
    extract_json_text (wrap_json t) = pyStrip t := by
  have c1 : pyContains (wrap_json t) fenceJson = true := by
    unfold pyContains
    apply decide_eq_true
    exact List.IsPrefix.isInfix
      ⟨['\n'] ++ t ++ ['\n'] ++ fence, by simp [wrap_json, List.append_assoc]⟩
  unfold extract_json_text
  rw [c1]
  rw [if_pos rfl]
  have hs1 : pySplit fenceJson (wrap_json t) =
      [[], '\n' :: ((t ++ ['\n']) ++ fence)] := by
    unfold pySplit
    have hb := pySplitAux_boundary fenceJson (by decide) []
      ('\n' :: ((t ++ ['\n']) ++ fence)) []
      (fun x hx hxne => absurd (List.suffix_nil.1 hx) hxne)
    rw [show wrap_json t =
      [] ++ fenceJson ++ ('\n' :: ((t ++ ['\n']) ++ fence)) by
        simp [wrap_json, List.append_assoc]]
    rw [hb]
    rw [pySplitAux_no_occ fenceJson _ [] (no_fenceJson_in_tagged_rest t h)]
    simp
  rw [hs1]
  rw [show pyIndex [[], '\n' :: ((t ++ ['\n']) ++ fence)] 1 =
    '\n' :: ((t ++ ['\n']) ++ fence) from rfl]
  show pyStrip (pyIndex (pySplit fence ('\n' :: ((t ++ ['\n']) ++ fence))) 0) = pyStrip t
  unfold pySplit
  rw [split_mid_fence t h]
  rw [show pyIndex ['\n' :: (t ++ ['\n']), []] 0 = '\n' :: (t ++ ['\n']) from rfl]
  rw [pyStrip_cons_nl, pyStrip_snoc_nl]

theorem extract_wrap_bare (t : PyStr) (h : ¬ fence <:+: t) :
    extract_json_text (wrap_bare t) = pyStrip t := by
  have c1 : pyContains (wrap_bare t) fenceJson = false := by
    unfold pyContains
    exact decide_eq_false (no_fenceJson_in_bare t h)
  have c2 : pyContains (wrap_bare t) fence = true := by
    unfold pyContains
    apply decide_eq_true
    exact List.IsPrefix.isInfix
      ⟨['\n'] ++ t ++ ['\n'] ++ fence, by simp [wrap_bare, List.append_assoc]⟩
  unfold extract_json_text
  rw [c1, c2]
  rw [if_neg (by simp)]
  rw [if_pos rfl]
  have hs1 : pySplit fence (wrap_bare t) =
      [[], '\n' :: (t ++ ['\n']), []] := by
    unfold pySplit
    have hb := pySplitAux_boundary fence (by decide) []
      ('\n' :: ((t ++ ['\n']) ++ fence)) []
      (fun x hx hxne => absurd (List.suffix_nil.1 hx) hxne)
    rw [show wrap_bare t =
      [] ++ fence ++ ('\n' :: ((t ++ ['\n']) ++ fence)) by
        simp [wrap_bare, List.append_assoc]]
    rw [hb]
    rw [split_mid_fence t h]
    simp
  rw [hs1]
  rw [show pyIndex [[], '\n' :: (t ++ ['\n']), []] 1 =
    '\n' :: (t ++ ['\n']) from rfl]
  have hs2 : pySplit fence ('\n' :: (t ++ ['\n'])) = ['\n' :: (t ++ ['\n'])] := by
    unfold pySplit
    rw [pySplitAux_no_occ fence _ [] (no_fence_in_mid t h)]
    simp
  rw [hs2]
  rw [show pyIndex ['\n' :: (t ++ ['\n'])] 0 = '\n' :: (t ++ ['\n']) from rfl]
  rw [pyStrip_cons_nl, pyStrip_snoc_nl]

theorem exec_actions_all_ok (f : PyJson → Option PyExc) (acts : List PyJson)
    (h : ∀ a ∈ acts, f a = none) : exec_actions f acts = (acts, none) := by
  induction acts with
  | nil => rfl
  | cons a rest ih =>
    have ha := h a (by simp)
    simp [exec_actions, ha, ih (fun b hb => h b (by simp [hb]))]

theorem exec_actions_first_fail (f : PyJson → Option PyExc)
    (pre : List PyJson) (a : PyJson) (post : List PyJson) (e : PyExc)
    (hpre : ∀ b ∈ pre, f b = none) (ha : f a = some e) :
    exec_actions f (pre ++ a :: post) = (pre ++ [a], some e) := by
  induction pre with
  | nil => simp [exec_actions, ha]
  | cons b pre' ih =>
    have hb := hpre b (by simp)
    simp [exec_actions, hb,
      ih (fun c hc => hpre c (by simp [hc]))]

theorem exists_first_fail {α ε : Type} (f : α → Option ε) (acts : List α)
    (h : ¬ ∀ a ∈ acts, f a = none) :
    ∃ q b r e, acts = q ++ b :: r ∧ (∀ c ∈ q, f c = none) ∧ f b = some e := by
  induction acts with
  | nil => exact absurd (by simp) h
  | cons a rest ih =>
    rcases hfa : f a with _ | e
    · have hrest : ¬ ∀ x ∈ rest, f x = none := by
        intro hall
        exact h (by
          intro x hx
          rcases List.mem_cons.1 hx with rfl | hx
          · exact hfa
          · exact hall x hx)
      obtain ⟨q, b, r, e, h1, h2, h3⟩ := ih hrest
      refine ⟨a :: q, b, r, e, by simp [h1], ?_, h3⟩
      intro c hc
      rcases List.mem_cons.1 hc with rfl | hc
      · exact hfa
      · exact h2 c hc
    · exact ⟨[], a, rest, e, rfl, by simp, hfa⟩

theorem first_fail_position {α ε : Type} (f : α → Option ε) (q : List α) :
    ∀ (pre : List α) (b a : α) (x y : List α) (eb ea : ε),
    q ++ b :: x = pre ++ a :: y →
    (∀ c ∈ q, f c = none) → (∀ c ∈ pre, f c = none) →
    f b = some eb → f a = some ea →
    q = pre ∧ b = a := by
  induction q with
  | nil =>
    intro pre b a x y eb ea heq _ hpre hb _
    cases pre with
    | nil =>
      simp only [List.nil_append, List.cons.injEq] at heq
      exact ⟨rfl, heq.1⟩
    | cons p pre' =>
      simp only [List.nil_append, List.cons_append, List.cons.injEq] at heq
      have : f b = none := heq.1 ▸ hpre p (by simp)
      rw [hb] at this
      exact absurd this (by simp)
  | cons c q' ih =>
    intro pre b a x y eb ea heq hq hpre hb ha
    cases pre with
    | nil =>
      simp only [List.cons_append, List.nil_append, List.cons.injEq] at heq
      have : f a = none := heq.1 ▸ hq c (by simp)
      rw [ha] at this
      exact absurd this (by simp)
    | cons p pre' =>
      simp only [List.cons_append, List.cons.injEq] at heq
      obtain ⟨h1, h2⟩ := heq
      obtain ⟨h3, h4⟩ := ih pre' b a x y eb ea h2
        (fun z hz => hq z (by simp [hz])) (fun z hz => hpre z (by simp [hz]))
        hb ha
      exact ⟨by rw [h1, h3], h4⟩

theorem exec_instructions_all_ok (interp : Nat → PyStr → List PyJson)
    (f : PyJson → Option PyExc) :
    ∀ (k : Nat) (l : List PyStr),
    (∀ a ∈ planned_actions interp k l, f a = none) →
    exec_instructions_from interp f k l = (planned_actions interp k l, none) := by
  intro k l
  induction l generalizing k with
  | nil => intro _; rfl
  | cons ins rest ih =>
    intro h
    have h1 : ∀ a ∈ interp k ins, f a = none := fun a ha =>
      h a (by simp [planned_actions, ha])
    have h2 := ih (k + 1) (fun a ha => h a (by simp [planned_actions, ha]))
    simp [exec_instructions_from, exec_actions_all_ok f _ h1, h2, planned_actions]

theorem exec_instructions_first_fail (interp : Nat → PyStr → List PyJson)
    (f : PyJson → Option PyExc) :
    ∀ (k : Nat) (l : List PyStr) (pre : List PyJson) (a : PyJson)
      (post : List PyJson) (e : PyExc),
    planned_actions interp k l = pre ++ a :: post →
    (∀ b ∈ pre, f b = none) → f a = some e →
    exec_instructions_from interp f k l = (pre ++ [a], some e) := by
  intro k l
  induction l generalizing k with
  | nil =>
    intro pre a post e hsplit
    simp [planned_actions] at hsplit
  | cons ins rest ih =>
    intro pre a post e hsplit hpre ha
    have hsplit' : interp k ins ++ planned_actions interp (k + 1) rest =
        pre ++ a :: post := by
      simpa [planned_actions] using hsplit
    by_cases hall : ∀ b ∈ interp k ins, f b = none
    · have hnotin : a ∉ interp k ins := fun hin => by simp [hall a hin] at ha
      have hcase : ∃ a', pre = interp k ins ++ a' ∧
          planned_actions interp (k + 1) rest = a' ++ a :: post := by
        rcases List.append_eq_append_iff.1 hsplit' with ⟨a', h1, h2⟩ | ⟨c', h1, h2⟩
        · exact ⟨a', h1, h2⟩
        · cases c' with
          | nil => exact ⟨[], by simpa using h1.symm, by simpa using h2.symm⟩
          | cons z c'' =>
            exfalso
            apply hnotin
            have hz : a = z := by
              simpa using congrArg (fun t => t.head?) h2
            rw [h1, hz]
            simp
      obtain ⟨a', hpre_eq, hplanned⟩ := hcase
      have hih := ih (k + 1) a' a post e hplanned
        (fun b hb => hpre b (by rw [hpre_eq]; exact List.mem_append_right _ hb)) ha
      simp [exec_instructions_from, exec_actions_all_ok f _ hall, hih,
        hpre_eq, List.append_assoc]
    · obtain ⟨q, b, r, eb, hqd, hq, hb⟩ := exists_first_fail f (interp k ins) hall
      have hsplit2 : q ++ b :: (r ++ planned_actions interp (k + 1) rest) =
          pre ++ a :: post := by
        rw [← hsplit']
        simp [hqd]
      obtain ⟨hqpre, hba⟩ := first_fail_position f q pre b a _ _ eb e hsplit2 hq hpre hb ha
      subst hqpre
      subst hba
      have heb : eb = e := by
        rw [hb] at ha
        exact Option.some.inj ha
      subst heb
      simp [exec_instructions_from, hqd,
        exec_actions_first_fail f q b r eb hq hb]

theorem dict_assign_mem {β : Type} (d : List (PyStr × β)) (k : PyStr) (v : β) :
    ∀ p ∈ dict_assign d k v, p ∈ d ∨ p = (k, v) := by
  intro p hp
  unfold dict_assign at hp
  split at hp
  · obtain ⟨q, hq, hfq⟩ := List.mem_map.1 hp
    by_cases hqk : q.1 = k
    · right
      rw [if_pos hqk] at hfq
      exact hfq.symm
    · left
      rw [if_neg hqk] at hfq
      exact hfq ▸ hq
  · rcases List.mem_append.1 hp with h | h
    · exact Or.inl h
    · right
      simpa using h

theorem dict_get_assign {β : Type} (d : List (PyStr × β)) (k : PyStr) (v : β) :
    dict_get (dict_assign d k v) k = some v := by
  induction d with
  | nil => simp [dict_assign, dict_get, has_key]
  | cons q d' ih =>
    by_cases hk : has_key (q :: d') k
    · rw [dict_assign, if_pos hk]
      simp only [List.map_cons]
      by_cases hqk : q.1 = k
      · rw [if_pos hqk]
        unfold dict_get
        rw [List.find?_cons_of_pos _ (by simp)]
        rfl
      · have hk' : has_key d' k := by
          simp only [has_key, List.any_cons] at hk
          rcases Bool.or_eq_true_iff.1 hk with h | h
          · exact absurd (of_decide_eq_true h) hqk
          · exact h
        have hmap : List.map (fun p => if p.1 = k then (k, v) else p) d' =
            dict_assign d' k v := by
          rw [dict_assign, if_pos hk']
        rw [if_neg hqk]
        unfold dict_get
        rw [List.find?_cons_of_neg _ (by simpa using hqk), hmap]
        exact ih
    · rw [dict_assign, if_neg hk]
      have hnone : List.find? (fun p => decide (p.1 = k)) (q :: d') = none := by
        rw [List.find?_eq_none]
        intro x hx
        simp only [decide_eq_true_eq]
        intro hxk
        apply hk
        simp only [has_key, List.any_eq_true]
        exact ⟨x, hx, decide_eq_true hxk⟩
      unfold dict_get
      rw [List.find?_append, hnone]
      rw [List.find?_cons_of_pos _ (by simp)]
      rfl

theorem collect_loop_cookie_values :
    ∀ (arr : List (PyStr × PyStr)) (d : List (PyStr × HeaderVal))
      (cookies : List PyStr),
    (collect_headers_loop arr d cookies).2 =
      cookies ++ (arr.filter (fun p => is_set_cookie p.1)).map Prod.snd := by
  intro arr
  induction arr with
  | nil => intro d cookies; simp [collect_headers_loop]
  | cons h rest ih =>
    intro d cookies
    obtain ⟨name, value⟩ := h
    by_cases hs : is_set_cookie name
    · simp [collect_headers_loop, hs, ih, List.filter_cons]
    · simp [collect_headers_loop, hs, ih, List.filter_cons]

theorem collect_loop_scalar :
    ∀ (arr : List (PyStr × PyStr)) (d : List (PyStr × HeaderVal))
      (cookies : List PyStr),
    (∀ p ∈ d, ∃ v, p.2 = HeaderVal.scalar v) →
    ∀ p ∈ (collect_headers_loop arr d cookies).1, ∃ v, p.2 = HeaderVal.scalar v := by
  intro arr
  induction arr with
  | nil => intro d cookies hd; exact hd
  | cons h rest ih =>
    intro d cookies hd
    obtain ⟨name, value⟩ := h
    by_cases hs : is_set_cookie name
    · simp only [collect_headers_loop, hs, if_true]
      exact ih d (cookies ++ [value]) hd
    · simp only [collect_headers_loop, hs]
      rw [if_neg (by simp [hs])]
      refine ih _ cookies ?_
      intro p hp
      rcases dict_assign_mem d name (HeaderVal.scalar value) p hp with h | h
      · exact hd p h
      · exact ⟨value, by rw [h]⟩

/-! ### Claim theorems -/

/-- Claim C2: for any model response whose (possibly fence-extracted) text is
not parseable as JSON (`json.loads` raises `json.JSONDecodeError`, modelled as
`jloads _ = none`), `_interpret_instruction` returns the empty action list.
It never raises: the model function is total, mirroring the source, whose
`try` block can only raise `json.JSONDecodeError` and catches exactly that. -/
theorem C2_malformed_response_yields_empty
    (jloads : PyStr → Option PyJson) (content : PyStr)
    (h : jloads (extract_json_text (pyStrip content)) = none) :
    interpret_instruction jloads content = PyJson.arr [] := by
  simp only [interpret_instruction, h]

theorem C2_witness :
    (fun _ : PyStr => (none : Option PyJson))
        (extract_json_text (pyStrip (pstr "definitely not json"))) = none ∧
    interpret_instruction (fun _ => none) (pstr "definitely not json") =
      PyJson.arr [] :=
  ⟨rfl, C2_malformed_response_yields_empty (fun _ => none)
    (pstr "definitely not json") rfl⟩

/-- Claim C3: when the (possibly fence-extracted) response text parses as JSON,
the interpreter returns exactly the parsed array (order preserved, it is the
same list), or exactly the value under the `actions` key of a parsed mapping
that has one, and wraps any other single parsed value into a one-element
sequence. -/
theorem C3_valid_json_returned_exactly
    (jloads : PyStr → Option PyJson) (content : PyStr) (parsed : PyJson)
    (h : jloads (extract_json_text (pyStrip content)) = some parsed) :
    (∀ l, parsed = PyJson.arr l →
      interpret_instruction jloads content = PyJson.arr l) ∧
    (∀ fields v, parsed = PyJson.obj fields →
      dict_get fields (pstr "actions") = some v →
      interpret_instruction jloads content = v) ∧
    ((∀ l, parsed ≠ PyJson.arr l) →
     (∀ fields, parsed = PyJson.obj fields →
        dict_get fields (pstr "actions") = none) →
      interpret_instruction jloads content = PyJson.arr [parsed]) := by
  refine ⟨?_, ?_, ?_⟩
  · rintro l rfl
    simp only [interpret_instruction, h]
  · rintro fields v rfl hv
    simp only [interpret_instruction, h, hv]
  · intro hnl hobj
    simp only [interpret_instruction, h]
    match parsed with
    | PyJson.null => rfl
    | PyJson.boolean b => rfl
    | PyJson.num n => rfl
    | PyJson.str s => rfl
    | PyJson.arr l => exact absurd rfl (hnl l)
    | PyJson.obj fields => simp [hobj fields rfl]

theorem C3_witness :
    interpret_instruction (fun _ => some (PyJson.arr [PyJson.null]))
      (pstr "[null]") = PyJson.arr [PyJson.null] :=
  (C3_valid_json_returned_exactly (fun _ => some (PyJson.arr [PyJson.null]))
    (pstr "[null]") (PyJson.arr [PyJson.null]) rfl).1 [PyJson.null] rfl

/-- Claim C4, counterexample: the claim lists seven strategies (a)-(g) tried
in order for every click, with (b) exact-text always among them.  In the code
(a) and (b) are two arms of one conditional first strategy, so for a hint
that already looks like a selector (here `#btn`) the exact-text selector is
never attempted, and the attempt list differs from the claim's list. -/
theorem C4_counterexample :
    click_attempts (pstr "#btn") ≠ spec_click_attempts (pstr "#btn") ∧
    sel_text_exact (pstr "#btn") ∉ click_attempts (pstr "#btn") ∧
    sel_text_exact (pstr "#btn") ∈ spec_click_attempts (pstr "#btn") := by
  decide

/-- Claim C4, amended: `_action_click` tries, in fixed priority order, first a
single conditional strategy — the raw hint itself if it already looks like a
CSS/ID/attribute selector, otherwise the exact-text selector — and then the
case-insensitive regex, link-text, button-text, aria-label and raw-literal
selectors; the first selector the page accepts wins, and if every attempt
fails it raises an error naming the original hint. -/
theorem C4_click_strategy_order (clickOk : PyStr → Bool) (s : PyStr) :
    click_attempts s =
      (if looks_like_selector s then [s] else [sel_text_exact s]) ++
      [sel_text_regex s, sel_link s, sel_button s, sel_aria s, s] ∧
    ((∀ c ∈ click_attempts s, clickOk c = false) →
      action_click clickOk s = Except.error (pstr "Could not click on: " ++ s)) ∧
    (∀ (i : Nat) (hi : i < (click_attempts s).length),
      clickOk ((click_attempts s).get ⟨i, hi⟩) = true →
      (∀ (j : Nat) (hj : j < i),
        clickOk ((click_attempts s).get ⟨j, Nat.lt_trans hj hi⟩) = false) →
      action_click clickOk s = Except.ok ((click_attempts s).get ⟨i, hi⟩)) := by
  refine ⟨?_, ?_, ?_⟩
  · by_cases hs : looks_like_selector s <;>
      simp [click_attempts, click_strategies, hs]
  · intro hall
    have : (click_attempts s).find? clickOk = none :=
      List.find?_eq_none.2 (fun c hc => by simp [hall c hc])
    simp [action_click, this]
  · intro i hi hp hb
    have := find_at_first_true clickOk (click_attempts s) i hi hp hb
    simp [action_click, this]

theorem C4_witness :
    action_click (fun _ => false) (pstr "Login") =
      Except.error (pstr "Could not click on: " ++ pstr "Login") :=
  (C4_click_strategy_order (fun _ => false) (pstr "Login")).2.1
    (fun _ _ => rfl)

/-- Claim C10: a `scroll` action whose supplied (non-empty) selector matches
no element is a silent no-op: `query_selector` returns `None`, the
`if element:` guard skips the scroll, no viewport fallback runs, and nothing
is raised (the modelled path is total and returns no effects). -/
theorem C10_scroll_missing_selector_noop
    (query : PyStr → Bool) (direction sel : PyStr)
    (h1 : sel ≠ []) (h2 : query sel = false) :
    action_scroll query direction (some sel) = [] := by
  simp [action_scroll, h1, h2]

theorem C10_witness :
    action_scroll (fun _ => false) (pstr "down") (some (pstr "#missing")) = [] :=
  C10_scroll_missing_selector_noop (fun _ => false) (pstr "down")
    (pstr "#missing") (by decide) rfl

/-- Claim C5: the orchestrator executes instructions strictly in submission
order and, within each instruction, the interpreted actions strictly in the
order the interpreter returned, draining one instruction's action list before
the next instruction: when every action succeeds the executed sequence is
exactly the instruction-by-instruction concatenation of the interpreted
action lists; when an action raises, exactly the planned actions before it
plus the failing one have run and its exception is the orchestrator's
outcome; and a setup exception makes the whole agentic fetch call fail with
the error the outer handler maps it to. -/
theorem C5_orchestrator_ordering (interp : Nat → PyStr → List PyJson)
    (execA : PyJson → Option PyExc) (ins : PyStr ⊕ List PyStr) :
    ((∀ a ∈ planned_actions interp 0 (normalize_instructions ins), execA a = none) →
      execute_smart_instructions interp execA ins =
        (planned_actions interp 0 (normalize_instructions ins), none)) ∧
    (∀ pre a post e,
      planned_actions interp 0 (normalize_instructions ins) = pre ++ a :: post →
      (∀ b ∈ pre, execA b = none) → execA a = some e →
      execute_smart_instructions interp execA ins = (pre ++ [a], some e)) ∧
    (∀ (D : Type) (env : AgenticEnv D) (url : PyStr)
       (navOpt : Option NavResponse) (e : PyExc),
      env.gotoResult = Sum.inr navOpt →
      instructions_truthy (some ins) = true →
      (execute_smart_instructions env.interp env.execA ins).2 = some e →
      (agentic_fetch env url (some ins)).1 = Except.error (outer_except e)) := by
  refine ⟨?_, ?_, ?_⟩
  · intro h
    exact exec_instructions_all_ok interp execA 0 (normalize_instructions ins) h
  · intro pre a post e hsplit hpre ha
    exact exec_instructions_first_fail interp execA 0
      (normalize_instructions ins) pre a post e hsplit hpre ha
  · intro D env url navOpt e hg ht hsome
    unfold agentic_fetch
    rw [hg]
    simp only [ht, if_true, hsome]

theorem C5_witness :
    execute_smart_instructions
      (fun _ s => [PyJson.str s])
      (fun a => match a with
        | PyJson.str s =>
          if s = pstr "b" then some (PyExc.generic (pstr "boom")) else none
        | _ => none)
      (Sum.inr [pstr "a", pstr "b", pstr "c"]) =
      ([PyJson.str (pstr "a"), PyJson.str (pstr "b")],
       some (PyExc.generic (pstr "boom"))) := by
  have h := (C5_orchestrator_ordering
      (fun _ s => [PyJson.str s])
      (fun a => match a with
        | PyJson.str s =>
          if s = pstr "b" then some (PyExc.generic (pstr "boom")) else none
        | _ => none)
      (Sum.inr [pstr "a", pstr "b", pstr "c"])).2.1
    [PyJson.str (pstr "a")] (PyJson.str (pstr "b")) [PyJson.str (pstr "c")]
    (PyExc.generic (pstr "boom")) rfl
    (by
      intro b hb
      rw [List.mem_singleton] at hb
      subst hb
      rfl)
    rfl
  simpa using h

/-- Claim C1: the fast path raises `HTTPErrorException(status)` for a
navigation status of 404 and constructs no snapshot, as the claim says — but
the agentic browser path contradicts the claim: `AgenticPageFetcher.fetch`
never checks `response.status` against 400, records the status into the
snapshot and returns normally (its outer `except` chain even lists
`HTTPErrorException` for re-raising, yet nothing in the `try` block raises
it).  Evaluated here at a navigation response with status 404 on each path. -/
theorem C1_http_error_divergence :
    PageFetcher_fetch (fun _ => some ())
      (Sum.inr { status_code := 404, headers := [(pstr "content-type", pstr "text/html")],
                 text := pstr "<html>e</html>", url := pstr "http://e.test" })
      (pstr "http://e.test") = Except.error (PyExc.httpError 404) ∧
    (agentic_fetch
      { gotoResult := Sum.inr (some { status := 404, headers_array := [] }),
        interp := fun _ _ => [],
        execA := fun _ => none,
        finalUrl := pstr "http://e.test",
        content := pstr "<html>e</html>",
        soup := fun _ => some () }
      (pstr "http://e.test") none).1 =
      Except.ok { url := pstr "http://e.test", status_code := 404, headers := [],
                  html := pstr "<html>e</html>", dom := () } := by
  constructor <;> rfl

/-- Claim C7: the browser resource is released on every exit path of
`AgenticPageFetcher.fetch` — each path's event trace contains the explicit
`browser.close()` or the `async_playwright` scope exit whose teardown closes
every browser it launched — and when navigation raises (e.g. a timeout), the
explicit `browser.close()` of the `except` handler appears in the trace
before the classified typed exception is returned to the caller. -/
theorem C7_browser_released_on_all_paths {D : Type} (env : AgenticEnv D)
    (url : PyStr) (ins : Option (PyStr ⊕ List PyStr)) :
    browser_released (agentic_fetch env url ins).2 ∧
    (∀ msg, env.gotoResult = Sum.inl msg →
      agentic_fetch env url ins =
        (Except.error (classify_goto_error url msg),
         [BrowserEvent.launch, BrowserEvent.closeBrowser, BrowserEvent.scopeExit])) := by
  constructor
  · unfold agentic_fetch browser_released
    rcases env.gotoResult with msg | navOpt
    · simp
    · rcases hs : (if instructions_truthy ins then
        match ins with
        | some i => (execute_smart_instructions env.interp env.execA i).2
        | none => none
      else none) with _ | e
      · rcases hc : env.soup env.content with _ | dom <;> simp [hs, hc]
      · simp [hs]
  · intro msg hmsg
    unfold agentic_fetch
    rw [hmsg]

theorem C7_witness :
    agentic_fetch
      { gotoResult := Sum.inl (pstr "Timeout 15000ms exceeded."),
        interp := fun _ _ => [],
        execA := fun _ => none,
        finalUrl := pstr "http://t.test",
        content := [],
        soup := fun _ => (none : Option Unit) }
      (pstr "http://t.test") none =
      (Except.error (classify_goto_error (pstr "http://t.test")
        (pstr "Timeout 15000ms exceeded.")),
       [BrowserEvent.launch, BrowserEvent.closeBrowser, BrowserEvent.scopeExit]) ∧
    classify_goto_error (pstr "http://t.test") (pstr "Timeout 15000ms exceeded.") =
      PyExc.pageTimeout (pstr "Timeout while fetching: http://t.test") :=
  ⟨(C7_browser_released_on_all_paths
      { gotoResult := Sum.inl (pstr "Timeout 15000ms exceeded."),
        interp := fun _ _ => [],
        execA := fun _ => none,
        finalUrl := pstr "http://t.test",
        content := [],
        soup := fun _ => (none : Option Unit) }
      (pstr "http://t.test") none).2 (pstr "Timeout 15000ms exceeded.") rfl,
   by decide⟩

/-- Claim C6: when the navigation response's header array carries exactly two
Set-Cookie values (matched case-insensitively, in order `v₁` then `v₂`), the
returned snapshot's headers map the `set-cookie` key to the list
`[v₁, v₂]`, and every other key in the snapshot's headers holds a single
scalar value. -/
theorem C6_set_cookie_header_list (D : Type) (env : AgenticEnv D) (url : PyStr)
    (ins : Option (PyStr ⊕ List PyStr)) (r : NavResponse) (v₁ v₂ : PyStr)
    (snap : PageSnapshot D)
    (hg : env.gotoResult = Sum.inr (some r))
    (hcookies : (r.headers_array.filter (fun p => is_set_cookie p.1)).map Prod.snd
      = [v₁, v₂])
    (hok : (agentic_fetch env url ins).1 = Except.ok snap) :
    dict_get snap.headers (pstr "set-cookie") = some (HeaderVal.vlist [v₁, v₂]) ∧
    (∀ p ∈ snap.headers, p.1 ≠ pstr "set-cookie" →
      ∃ v, p.2 = HeaderVal.scalar v) := by
  have hheaders : snap.headers = collect_headers r.headers_array := by
    unfold agentic_fetch at hok
    rw [hg] at hok
    simp only at hok
    split at hok
    · simp at hok
    · rcases hc : env.soup env.content with _ | dom <;> rw [hc] at hok
      · simp at hok
      · simp only [Except.ok.injEq] at hok
        subst hok
        rfl
  have hloop : (collect_headers_loop r.headers_array [] []).2 = [v₁, v₂] := by
    rw [collect_loop_cookie_values, hcookies]
    rfl
  have hcollect : collect_headers r.headers_array =
      dict_assign (collect_headers_loop r.headers_array [] []).1
        (pstr "set-cookie") (HeaderVal.vlist [v₁, v₂]) := by
    simp only [collect_headers, hloop]
    simp
  constructor
  · rw [hheaders, hcollect]
    exact dict_get_assign _ _ _
  · intro p hp hne
    rw [hheaders, hcollect] at hp
    rcases dict_assign_mem _ _ _ p hp with h | h
    · exact collect_loop_scalar r.headers_array [] [] (by simp) p h
    · exact absurd (by rw [h]) hne

theorem C6_witness :
    dict_get
      [(pstr "content-type", HeaderVal.scalar (pstr "text/html")),
       (pstr "set-cookie", HeaderVal.vlist [pstr "a=1", pstr "b=2"])]
      (pstr "set-cookie") = some (HeaderVal.vlist [pstr "a=1", pstr "b=2"]) :=
  (C6_set_cookie_header_list Unit
    { gotoResult := Sum.inr (some
        { status := 200,
          headers_array :=
            [(pstr "content-type", pstr "text/html"),
             (pstr "set-cookie", pstr "a=1"),
             (pstr "Set-Cookie", pstr "b=2")] }),
      interp := fun _ _ => [],
      execA := fun _ => none,
      finalUrl := pstr "http://c.test",
      content := pstr "<html>c</html>",
      soup := fun _ => some () }
    (pstr "http://c.test") none
    { status := 200,
      headers_array :=
        [(pstr "content-type", pstr "text/html"),
         (pstr "set-cookie", pstr "a=1"),
         (pstr "Set-Cookie", pstr "b=2")] }
    (pstr "a=1") (pstr "b=2")
    { url := pstr "http://c.test", status_code := 200,
      headers :=
        [(pstr "content-type", HeaderVal.scalar (pstr "text/html")),
         (pstr "set-cookie", HeaderVal.vlist [pstr "a=1", pstr "b=2"])],
      html := pstr "<html>c</html>", dom := () }
    rfl (by decide) rfl).1

/-- Claim C8, counterexample: the agentic path can return a partial snapshot.
When `page.goto` returns `None` (as Playwright does for same-document
navigations) and `page.content()` is empty, `AgenticPageFetcher.fetch`
returns a `PageSnapshot` with empty `html`, placeholder `status_code = 0`
(from `status_code or 0`) and empty headers — violating both the non-empty
`html` invariant and the no-placeholder part of the claim. -/
theorem C8_counterexample :
    (agentic_fetch
      { gotoResult := Sum.inr none,
        interp := fun _ _ => [],
        execA := fun _ => none,
        finalUrl := pstr "http://s.test",
        content := [],
        soup := fun _ => some () }
      (pstr "http://s.test") none).1 =
      Except.ok { url := pstr "http://s.test", status_code := 0, headers := [],
                  html := [], dom := () } := by
  rfl

/-- Claim C8, amended: every snapshot the fast path returns has non-empty
`html` and a parsed document derived from exactly that `html`; on the agentic
path the parsed document is likewise derived from exactly the snapshot's
`html`, but `html` may be empty and `status_code`/`headers` fall back to the
placeholders `0`/`{}` when navigation yields no response object.  Both paths
are all-or-nothing in the sense that the snapshot is built in a single
constructor call after every guard has passed. -/
theorem C8_snapshot_invariant (D : Type) :
    (∀ (soup : PyStr → Option D) (net : HttpxErr ⊕ HttpResponse)
       (url : PyStr) (snap : PageSnapshot D),
      PageFetcher_fetch soup net url = Except.ok snap →
      snap.html ≠ [] ∧ soup snap.html = some snap.dom) ∧
    (∀ (env : AgenticEnv D) (url : PyStr) (ins : Option (PyStr ⊕ List PyStr))
       (snap : PageSnapshot D),
      (agentic_fetch env url ins).1 = Except.ok snap →
      env.soup snap.html = some snap.dom) := by
  constructor
  · intro soup net url snap h
    rcases net with err | response
    · rcases err <;> simp [PageFetcher_fetch] at h
    · simp only [PageFetcher_fetch] at h
      split at h
      · simp at h
      · split at h
        · simp at h
        · split at h
          · simp at h
          · rcases hsoup : soup (pyStrip response.text) with _ | dom <;>
              rw [hsoup] at h
            · simp at h
            · simp only [Except.ok.injEq] at h
              subst h
              exact ⟨by assumption, hsoup⟩
  · intro env url ins snap h
    unfold agentic_fetch at h
    rcases hg : env.gotoResult with msg | navOpt <;> rw [hg] at h
    · simp at h
    · simp only at h
      split at h
      · simp at h
      · rcases hc : env.soup env.content with _ | dom <;> rw [hc] at h
        · simp at h
        · simp only [Except.ok.injEq] at h
          subst h
          exact hc

theorem C8_witness :
    (pstr "<p>x</p>" ≠ [] ∧
      (fun _ : PyStr => some ()) (pstr "<p>x</p>") = some ()) ∧
    (fun _ : PyStr => some ()) (pstr "<html>e</html>") = some () :=
  ⟨by
    have h := (C8_snapshot_invariant Unit).1 (fun _ => some ())
      (Sum.inr { status_code := 200,
                 headers := [(pstr "content-type", pstr "text/html")],
                 text := pstr "<p>x</p>", url := pstr "http://w.test" })
      (pstr "http://w.test")
      { url := pstr "http://w.test", status_code := 200,
        headers := [(pstr "content-type", HeaderVal.scalar (pstr "text/html"))],
        html := pstr "<p>x</p>", dom := () } rfl
    exact h,
   by
    have h := (C8_snapshot_invariant Unit).2
      { gotoResult := Sum.inr none,
        interp := fun _ _ => [],
        execA := fun _ => none,
        finalUrl := pstr "http://w.test",
        content := pstr "<html>e</html>",
        soup := fun _ => some () }
      (pstr "http://w.test") none
      { url := pstr "http://w.test", status_code := 0, headers := [],
        html := pstr "<html>e</html>", dom := () } rfl
    exact h⟩

/-- Claim C9: for a model response wrapped in a fenced code block around an
interior `t` that itself contains no fence — with (` ```json `) or without
(` ``` `) a json language tag — the interpreter's strip-extract-parse
pipeline produces the same result as running the pipeline on the unfenced
interior text alone, for every JSON parser outcome. -/
theorem C9_fenced_block_extraction (jloads : PyStr → Option PyJson) (t : PyStr)
    (h : ¬ fence <:+: t) :
    interpret_instruction jloads (wrap_json t) = interpret_instruction jloads t ∧
    interpret_instruction jloads (wrap_bare t) = interpret_instruction jloads t := by
  have hf : ¬ fence <:+: pyStrip t :=
    fun hi => h (hi.trans (pyStrip_isInfix t))
  have hstrip_t : extract_json_text (pyStrip t) = pyStrip t :=
    extract_no_fence (pyStrip t)
      (sub_no_occ fence fenceJson (pyStrip t) (by decide) hf) hf
  have e1 : extract_json_text (pyStrip (wrap_json t)) = pyStrip t := by
    rw [pyStrip_wrap_json t]
    exact extract_wrap_json t h
  have e2 : extract_json_text (pyStrip (wrap_bare t)) = pyStrip t := by
    rw [pyStrip_wrap_bare t]
    exact extract_wrap_bare t h
  constructor
  · simp only [interpret_instruction]
    rw [e1, hstrip_t]
  · simp only [interpret_instruction]
    rw [e2, hstrip_t]

theorem C9_witness :
    interpret_instruction (fun _ => none) (wrap_json (pstr "[1, 2]")) =
      interpret_instruction (fun _ => none) (pstr "[1, 2]") ∧
    interpret_instruction (fun _ => none) (wrap_bare (pstr "[1, 2]")) =
      interpret_instruction (fun _ => none) (pstr "[1, 2]") :=
  C9_fenced_block_extraction (fun _ => none) (pstr "[1, 2]") (by decide)

end QAFetch
